import Mathlib

/-!
Verification of the grep-style line-search tool (`grep.py`, the most
complete variant of the repository; `phase3.py` shares the same scan
algorithm).

Shallow embedding conventions:
* a decoded text line is a `List Char`;
* a compiled regular expression (`re.Pattern`) is abstracted by its
  `search` function, which returns the first match span `(a, b)` (half
  open, character indices) or `none`; Python's `re` guarantees the span
  lies inside the searched string, recorded in the `valid` field;
* a file on disk is a `FileModel`: the raw bytes seen by the binary
  classifier (`none` when the `rb` open raises `OSError`) together with
  the outcome of the later text-mode open (`openError` for an `OSError`,
  or the list of raw physical lines delivered by line iteration —
  decoding with `errors="replace"` is total, so reading never fails on
  byte content);
* emitted stdout lines are structured events (`OutLine`): limiting the
  model to the printed fields (path is fixed per call and omitted).
-/

/-- Abstraction of a compiled `re.Pattern`: `search` returns the first
match span, and Python guarantees any reported span lies inside the
searched string. -/
structure RePattern where
  search : List Char → Option (Nat × Nat)
  valid : ∀ {l : List Char} {a b : Nat}, search l = some (a, b) → a ≤ b ∧ b ≤ l.length

/-- `line.rstrip("\n")` from `grep.py` line 152: remove every trailing
newline character. -/
def rstripNewlines : List Char → List Char
  | [] => []
  | c :: rest =>
    let r := rstripNewlines rest
    if r.isEmpty && c == '\n' then [] else c :: r

/-- `ANSI_RESET = "\x1b[0m"` (grep.py line 19). -/
def ANSI_RESET : List Char := ['\x1b', '[', '0', 'm']

/-- `ANSI_YELLOW = "\x1b[33m"` (grep.py line 22). -/
def ANSI_YELLOW : List Char := ['\x1b', '[', '3', '3', 'm']

/-- `highlight_regex_first` (grep.py lines 34-41): wrap the first match
span of `rx` in `line` with yellow/reset markers; `line[a:b]` is
`(line.drop a).take (b - a)`. -/
def highlight_regex_first (line : List Char) (rx : RePattern) (enabled : Bool) : List Char :=
  if !enabled then line
  else
    match rx.search line with
    | none => line
    | some (a, b) =>
      line.take a ++ ANSI_YELLOW ++ (line.drop a).take (b - a) ++ ANSI_RESET ++ line.drop b

/-- The `Stats` dataclass (grep.py lines 47-54); `elapsed_s` is wall
clock time and outside the discrete model. -/
structure Stats where
  files_seen : Nat
  files_read : Nat
  files_skipped_binary : Nat
  lines_seen : Nat
  lines_reported : Nat
deriving DecidableEq, Repr

/-- Fresh counters at run start (`stats = Stats()` at grep.py line 226). -/
def Stats.init : Stats := ⟨0, 0, 0, 0, 0⟩

/-- Outcome of `filepath.open("r", encoding="utf-8", errors="replace")`
followed by line iteration. -/
inductive ReadResult where
  | openError
  | ok (rawLines : List (List Char))
deriving DecidableEq

/-- One file on disk as the program observes it. -/
structure FileModel where
  bytes : Option (List Nat)
  readResult : ReadResult

/-- `is_probably_text_file` (grep.py lines 60-66): sample at most
`sample_size` bytes; binary iff the sample holds a NUL byte or the
binary-mode open fails. -/
def is_probably_text_file (f : FileModel) (sample_size : Nat) : Bool :=
  match f.bytes with
  | none => false
  | some chunk => !((chunk.take sample_size).contains 0)

/-- A printed stdout line: `path:lineno:content` or `path:count`. -/
inductive OutLine where
  | matchLine (lineno : Nat) (content : List Char)
  | countLine (count : Nat)
deriving DecidableEq

/-- Per-file accumulator of the scan loop (grep.py lines 148-169):
`match_count`, the printed lines, and the deltas to `stats.lines_seen`
and `stats.lines_reported`. -/
structure ScanAcc where
  match_count : Nat
  out : List OutLine
  lines_seen : Nat
  lines_reported : Nat
deriving DecidableEq

/-- The `for lineno, raw in enumerate(f, start=1)` loop body
(grep.py lines 150-169), written as structural recursion over the list
of raw physical lines; the current line's effects are prepended to the
rest's, which yields the same final counters and the same output order
as the imperative loop. -/
def scanLines (rx : RePattern) (invert count_only color_enabled : Bool) :
    Nat → List (List Char) → ScanAcc
  | _, [] => ⟨0, [], 0, 0⟩
  | lineno, raw :: rest =>
    let acc := scanLines rx invert count_only color_enabled (lineno + 1) rest
    let line := rstripNewlines raw
    let matched := (rx.search line).isSome
    let ok := if invert then !matched else matched
    if ok then
      if count_only then
        { acc with match_count := acc.match_count + 1, lines_seen := acc.lines_seen + 1 }
      else
        let shown := if color_enabled && !invert then highlight_regex_first line rx true else line
        { acc with out := OutLine.matchLine lineno shown :: acc.out,
                   lines_seen := acc.lines_seen + 1,
                   lines_reported := acc.lines_reported + 1 }
    else
      { acc with lines_seen := acc.lines_seen + 1 }

/-- `grep_file` (grep.py lines 129-177): bump `files_seen`, classify,
on binary bump `files_skipped_binary` and return; on a text-mode open
error log and return (no `files_read` bump); otherwise bump
`files_read`, run the scan loop from line number 1, and in count mode
print the final `path:count` line and bump `lines_reported`. Returns
the updated stats and the stdout lines of this file. -/
def grep_file (f : FileModel) (rx : RePattern) (invert count_only color_enabled : Bool)
    (stats : Stats) : Stats × List OutLine :=
  let stats := { stats with files_seen := stats.files_seen + 1 }
  if !is_probably_text_file f 4096 then
    ({ stats with files_skipped_binary := stats.files_skipped_binary + 1 }, [])
  else
    match f.readResult with
    | ReadResult.openError => (stats, [])
    | ReadResult.ok rawLines =>
      let stats := { stats with files_read := stats.files_read + 1 }
      let acc := scanLines rx invert count_only color_enabled 1 rawLines
      let stats := { stats with
        lines_seen := stats.lines_seen + acc.lines_seen,
        lines_reported := stats.lines_reported + acc.lines_reported }
      if count_only then
        ({ stats with lines_reported := stats.lines_reported + 1 },
         acc.out ++ [OutLine.countLine acc.match_count])
      else
        (stats, acc.out)

/-- The `for fp in iter_files(...)` driver loop (grep.py lines 246-255):
scan each enumerated file in order, threading the shared stats. -/
def grep_run (rx : RePattern) (invert count_only color_enabled : Bool)
    (stats : Stats) : List FileModel → Stats × List OutLine
  | [] => (stats, [])
  | f :: rest =>
    let r := grep_file f rx invert count_only color_enabled stats
    let r2 := grep_run rx invert count_only color_enabled r.1 rest
    (r2.1, r.2 ++ r2.2)

/-- Outcome of `re.compile(args.regex, flags)` (grep.py lines 231-236). -/
inductive CompileResult where
  | ok (rx : RePattern)
  | err

/-- `main` (grep.py lines 207-257) after argument parsing, abstracting
over the compile outcome and the number of missing input paths: an
invalid regex or a missing input returns exit code 2 before any call of
`grep_file`; otherwise the enumerated files are scanned and 0 is
returned. The triple is (exit code, final stats, stdout lines). -/
def mainModel (c : CompileResult) (missingInputs : Nat)
    (invert count_only color_enabled : Bool) (files : List FileModel) :
    Nat × Stats × List OutLine :=
  match c with
  | CompileResult.err => (2, Stats.init, [])
  | CompileResult.ok rx =>
    if missingInputs ≠ 0 then (2, Stats.init, [])
    else
      let r := grep_run rx invert count_only color_enabled Stats.init files
      (0, r.1, r.2)

/-- Line numbers among a list of printed lines (a `path:lineno:content`
line reports `lineno`; a `path:count` line reports none). -/
def outNos : List OutLine → List Nat
  | [] => []
  | OutLine.matchLine n _ :: rest => n :: outNos rest
  | OutLine.countLine _ :: rest => outNos rest

/-- Literal substring pattern search, as `re.compile(re.escape(p))`
behaves: scan the line left to right and report the first position
where `p` occurs, with span `(i, i + p.length)`. -/
def findLiteral (p : List Char) : Nat → List Char → Option (Nat × Nat)
  | i, [] => if p.isPrefixOf [] then some (i, i + p.length) else none
  | i, c :: rest =>
    if p.isPrefixOf (c :: rest) then some (i, i + p.length)
    else findLiteral p (i + 1) rest

/-- `List.isPrefixOf` agrees with the existence of a split. -/
def isPrefixOf_exists : ∀ (p l : List Char), p.isPrefixOf l = true ↔ ∃ t, l = p ++ t := by
  intro p
  induction p with
  | nil =>
    intro l
    simp [List.isPrefixOf]
  | cons a as ih =>
    intro l
    cases l with
    | nil => simp [List.isPrefixOf]
    | cons b bs =>
      simp only [List.isPrefixOf, Bool.and_eq_true, beq_iff_eq]
      rw [ih bs]
      constructor
      · rintro ⟨rfl, t, rfl⟩
        exact ⟨t, rfl⟩
      · rintro ⟨t, ht⟩
        injection ht with h1 h2
        exact ⟨h1.symm, t, h2⟩

/-- A span reported by `findLiteral` starts at or after the start
index, has the pattern's width, and ends inside the list. -/
def findLiteral_span (p : List Char) :
    ∀ (l : List Char) (i a b : Nat), findLiteral p i l = some (a, b) →
      b = a + p.length ∧ a + p.length ≤ i + l.length := by
  intro l
  induction l with
  | nil =>
    intro i a b h
    simp only [findLiteral] at h
    split at h
    · rename_i hp
      obtain ⟨t, ht⟩ := (isPrefixOf_exists p []).mp hp
      have hp0 : p = [] := by
        cases p with
        | nil => rfl
        | cons x xs => simp at ht
      simp only [Option.some.injEq, Prod.mk.injEq] at h
      obtain ⟨rfl, rfl⟩ := h
      subst hp0
      simp
    · simp at h
  | cons c rest ih =>
    intro i a b h
    simp only [findLiteral] at h
    split at h
    · rename_i hp
      simp only [Option.some.injEq, Prod.mk.injEq] at h
      obtain ⟨rfl, rfl⟩ := h
      obtain ⟨t, ht⟩ := (isPrefixOf_exists _ _).mp hp
      have hlen : p.length ≤ (c :: rest).length := by
        rw [ht]
        simp
      simp only [List.length_cons] at hlen ⊢
      exact ⟨trivial, by omega⟩
    · have h2 := ih (i + 1) a b h
      simp only [List.length_cons]
      omega

/-- The compiled pattern for a literal (escaped) string `p`. -/
def literalPattern (p : List Char) : RePattern where
  search l := findLiteral p 0 l
  valid h := by
    have h2 := findLiteral_span _ _ _ _ _ h
    exact ⟨by omega, by omega⟩

/-- Whether a file would hit the per-file `OSError` handler at
grep.py line 176: it passes text classification, then the text-mode
open fails. -/
def ioInd (f : FileModel) : Nat :=
  if is_probably_text_file f 4096 = true ∧ f.readResult = ReadResult.openError then 1 else 0

/-- Number of files of a run that hit a per-file I/O error. -/
def ioErrorCount : List FileModel → Nat
  | [] => 0
  | f :: rest => ioInd f + ioErrorCount rest

/-- The per-line decision of grep.py lines 152-155 in isolation:
`line = raw.rstrip("\n")`, `matched = rx.search(line) is not None`,
`ok = (not matched) if invert else matched`. -/
def lineOk (rx : RePattern) (invert : Bool) (raw : List Char) : Bool :=
  if invert then !(rx.search (rstripNewlines raw)).isSome
  else (rx.search (rstripNewlines raw)).isSome

/-- Concrete data used to instantiate proved properties: the file of
spec scenario A, with content `"ok\nerror: boom\nok\n"`. -/
def linesA : List (List Char) :=
  [['o', 'k', '\n'],
   ['e', 'r', 'r', 'o', 'r', ':', ' ', 'b', 'o', 'o', 'm', '\n'],
   ['o', 'k', '\n']]

/-- Scenario A's file: text bytes, read succeeds. -/
def fileA : FileModel := ⟨some [111, 107, 10], ReadResult.ok linesA⟩

/-- A binary file: its sample holds a NUL byte. -/
def fileBin : FileModel := ⟨some [0, 1, 2], ReadResult.ok []⟩

/-- A file that passes classification but whose text-mode open fails. -/
def fileGone : FileModel := ⟨some [104, 105], ReadResult.openError⟩

/-- The literal pattern `error`. -/
def patError : RePattern := literalPattern ['e', 'r', 'r', 'o', 'r']

/-- A one-line text file with no occurrence of `error`. -/
def fileNoHit : FileModel := ⟨some [111], ReadResult.ok [['o', 'k', '\n']]⟩

/-! ### Scan-loop step lemmas -/

theorem scanLines_nil (rx : RePattern) (invert co ce : Bool) (n : Nat) :
    scanLines rx invert co ce n [] = ⟨0, [], 0, 0⟩ := rfl

theorem scanLines_cons_skip (rx : RePattern) (invert co ce : Bool) (n : Nat)
    (raw : List Char) (rest : List (List Char)) (h : lineOk rx invert raw = false) :
    scanLines rx invert co ce n (raw :: rest) =
      { scanLines rx invert co ce (n + 1) rest with
        lines_seen := (scanLines rx invert co ce (n + 1) rest).lines_seen + 1 } := by
  simp only [lineOk] at h
  simp only [scanLines, h]
  simp

theorem scanLines_cons_count (rx : RePattern) (invert ce : Bool) (n : Nat)
    (raw : List Char) (rest : List (List Char)) (h : lineOk rx invert raw = true) :
    scanLines rx invert true ce n (raw :: rest) =
      { scanLines rx invert true ce (n + 1) rest with
        match_count := (scanLines rx invert true ce (n + 1) rest).match_count + 1,
        lines_seen := (scanLines rx invert true ce (n + 1) rest).lines_seen + 1 } := by
  simp only [lineOk] at h
  simp only [scanLines, h]
  simp

theorem scanLines_cons_hit (rx : RePattern) (invert ce : Bool) (n : Nat)
    (raw : List Char) (rest : List (List Char)) (h : lineOk rx invert raw = true) :
    scanLines rx invert false ce n (raw :: rest) =
      { scanLines rx invert false ce (n + 1) rest with
        out := OutLine.matchLine n
            (if ce && !invert then highlight_regex_first (rstripNewlines raw) rx true
             else rstripNewlines raw) :: (scanLines rx invert false ce (n + 1) rest).out,
        lines_seen := (scanLines rx invert false ce (n + 1) rest).lines_seen + 1,
        lines_reported := (scanLines rx invert false ce (n + 1) rest).lines_reported + 1 } := by
  simp only [lineOk] at h
  simp only [scanLines, h]
  simp

theorem lineOk_invert_not (rx : RePattern) (raw : List Char) :
    lineOk rx true raw = !(lineOk rx false raw) := by
  simp [lineOk]

theorem outNos_match_cons (n : Nat) (s : List Char) (l : List OutLine) :
    outNos (OutLine.matchLine n s :: l) = n :: outNos l := rfl

/-- Membership of a line number among the printed line numbers of the
scan loop in Lines mode: exactly the 1-based positions (offset by the
start index) of the raw lines passing the per-line decision. -/
theorem mem_outNos_scan (rx : RePattern) (invert ce : Bool) :
    ∀ (L : List (List Char)) (n k : Nat),
      (k ∈ outNos (scanLines rx invert false ce n L).out ↔
        ∃ i, i < L.length ∧ k = n + i ∧ lineOk rx invert (L.getD i []) = true) := by
  intro L
  induction L with
  | nil =>
    intro n k
    simp [scanLines_nil, outNos]
  | cons raw rest ih =>
    intro n k
    by_cases h : lineOk rx invert raw = true
    · rw [scanLines_cons_hit rx invert ce n raw rest h]
      simp only [outNos_match_cons, List.mem_cons]
      rw [ih (n + 1) k]
      constructor
      · rintro (rfl | ⟨i, hi, rfl, hok⟩)
        · exact ⟨0, by simp, by simp, by simpa using h⟩
        · exact ⟨i + 1, by simpa using hi, by omega, by simpa using hok⟩
      · rintro ⟨i, hi, rfl, hok⟩
        cases i with
        | zero => left; omega
        | succ j =>
          right
          refine ⟨j, ?_, by omega, ?_⟩
          · simp only [List.length_cons] at hi
            omega
          · simpa using hok
    · have h' : lineOk rx invert raw = false := by simpa using h
      rw [scanLines_cons_skip rx invert false ce n raw rest h']
      rw [ih (n + 1) k]
      constructor
      · rintro ⟨i, hi, rfl, hok⟩
        exact ⟨i + 1, by simpa using hi, by omega, by simpa using hok⟩
      · rintro ⟨i, hi, rfl, hok⟩
        cases i with
        | zero =>
          exfalso
          simp only [List.getD_cons_zero] at hok
          rw [hok] at h'
          cases h'
        | succ j =>
          refine ⟨j, ?_, by omega, ?_⟩
          · simp only [List.length_cons] at hi
            omega
          · simpa using hok

/-- In count mode the scan loop prints nothing and reports nothing;
its `match_count` equals the number of lines that Lines mode prints. -/
theorem scan_count_mode (rx : RePattern) (invert ce ce' : Bool) :
    ∀ (L : List (List Char)) (n : Nat),
      (scanLines rx invert true ce n L).out = [] ∧
      (scanLines rx invert true ce n L).lines_reported = 0 ∧
      (scanLines rx invert true ce n L).match_count =
        ((scanLines rx invert false ce' n L).out).length := by
  intro L
  induction L with
  | nil =>
    intro n
    simp [scanLines_nil]
  | cons raw rest ih =>
    intro n
    obtain ⟨h1, h2, h3⟩ := ih (n + 1)
    by_cases h : lineOk rx invert raw = true
    · rw [scanLines_cons_count rx invert ce n raw rest h,
          scanLines_cons_hit rx invert ce' n raw rest h]
      simp [h1, h2, h3]
    · have h' : lineOk rx invert raw = false := by simpa using h
      rw [scanLines_cons_skip rx invert true ce n raw rest h',
          scanLines_cons_skip rx invert false ce' n raw rest h']
      simp [h1, h2, h3]

/-! ### grep_file unfolding lemmas -/

theorem grep_file_out_lines (f : FileModel) (rx : RePattern) (invert ce : Bool)
    (stats : Stats) (L : List (List Char))
    (htext : is_probably_text_file f 4096 = true) (hread : f.readResult = ReadResult.ok L) :
    (grep_file f rx invert false ce stats).2 = (scanLines rx invert false ce 1 L).out := by
  simp [grep_file, htext, hread]

theorem grep_file_out_count (f : FileModel) (rx : RePattern) (invert ce : Bool)
    (stats : Stats) (L : List (List Char))
    (htext : is_probably_text_file f 4096 = true) (hread : f.readResult = ReadResult.ok L) :
    (grep_file f rx invert true ce stats).2 =
      (scanLines rx invert true ce 1 L).out ++
        [OutLine.countLine (scanLines rx invert true ce 1 L).match_count] := by
  simp [grep_file, htext, hread]

theorem grep_file_reported_count (f : FileModel) (rx : RePattern) (invert ce : Bool)
    (stats : Stats) (L : List (List Char))
    (htext : is_probably_text_file f 4096 = true) (hread : f.readResult = ReadResult.ok L) :
    (grep_file f rx invert true ce stats).1.lines_reported =
      stats.lines_reported + (scanLines rx invert true ce 1 L).lines_reported + 1 := by
  simp [grep_file, htext, hread]

/-! ### Claim theorems -/

/-- C1: for a fixed compiled pattern and a successfully read text file,
the set of line numbers reported under Normal policy and the set
reported under Inverted policy partition the file's full 1..N
line-number range: their union is the whole range and their
intersection is empty. -/
theorem c1_invert_partition (f : FileModel) (rx : RePattern) (ce ce' : Bool)
    (L : List (List Char)) (stats stats' : Stats)
    (htext : is_probably_text_file f 4096 = true) (hread : f.readResult = ReadResult.ok L) :
    (∀ k, ((k ∈ outNos (grep_file f rx false false ce stats).2 ∨
            k ∈ outNos (grep_file f rx true false ce' stats').2) ↔
           (1 ≤ k ∧ k ≤ L.length))) ∧
    (∀ k, ¬(k ∈ outNos (grep_file f rx false false ce stats).2 ∧
            k ∈ outNos (grep_file f rx true false ce' stats').2)) := by
  rw [grep_file_out_lines f rx false ce stats L htext hread,
      grep_file_out_lines f rx true ce' stats' L htext hread]
  constructor
  · intro k
    rw [mem_outNos_scan, mem_outNos_scan]
    constructor
    · rintro (⟨i, hi, rfl, _⟩ | ⟨i, hi, rfl, _⟩) <;> omega
    · rintro ⟨hk1, hk2⟩
      by_cases hb : lineOk rx false (L.getD (k - 1) []) = true
      · exact Or.inl ⟨k - 1, by omega, by omega, hb⟩
      · have hb' : lineOk rx false (L.getD (k - 1) []) = false := by simpa using hb
        refine Or.inr ⟨k - 1, by omega, by omega, ?_⟩
        rw [lineOk_invert_not, hb']
        rfl
  · intro k
    rw [mem_outNos_scan, mem_outNos_scan]
    rintro ⟨⟨i, hi, hk, hok⟩, ⟨j, hj, hk', hok'⟩⟩
    have hij : i = j := by omega
    subst hij
    rw [lineOk_invert_not, hok] at hok'
    simp at hok'

/-- Witness for C1: scenario A's file with the literal pattern `error`. -/
theorem c1_invert_partition_witness :
    is_probably_text_file fileA 4096 = true ∧
    ((∀ k, ((k ∈ outNos (grep_file fileA patError false false false Stats.init).2 ∨
             k ∈ outNos (grep_file fileA patError true false false Stats.init).2) ↔
            (1 ≤ k ∧ k ≤ linesA.length))) ∧
     (∀ k, ¬(k ∈ outNos (grep_file fileA patError false false false Stats.init).2 ∧
             k ∈ outNos (grep_file fileA patError true false false Stats.init).2))) :=
  ⟨by decide,
   c1_invert_partition fileA patError false false linesA Stats.init Stats.init (by decide) rfl⟩

/-- C2: for a fixed pattern, file and match policy, the numeric count
printed by a CountPerFile scan equals the number of lines a Lines-mode
scan of the same file with the same pattern and policy emits. -/
theorem c2_count_law (f : FileModel) (rx : RePattern) (invert ce ce' : Bool)
    (stats stats' : Stats) (L : List (List Char))
    (htext : is_probably_text_file f 4096 = true) (hread : f.readResult = ReadResult.ok L) :
    (grep_file f rx invert true ce stats).2 =
      [OutLine.countLine ((grep_file f rx invert false ce' stats').2).length] := by
  rw [grep_file_out_count f rx invert ce stats L htext hread,
      grep_file_out_lines f rx invert ce' stats' L htext hread]
  obtain ⟨h1, _, h3⟩ := scan_count_mode rx invert ce ce' L 1
  rw [h1, h3]
  simp

/-- Witness for C2: scenario A's file prints count 1, and Lines mode
emits one line. -/
theorem c2_count_law_witness :
    is_probably_text_file fileA 4096 = true ∧
    (grep_file fileA patError false true false Stats.init).2 =
      [OutLine.countLine ((grep_file fileA patError false false false Stats.init).2).length] :=
  ⟨by decide,
   c2_count_law fileA patError false false false Stats.init Stats.init linesA (by decide) rfl⟩

/-- One call of the file scanner bumps `files_seen` by one, and bumps
exactly one of `files_read`, `files_skipped_binary`, or the implicit
per-file I/O error tally. -/
theorem grep_file_files_eq (f : FileModel) (rx : RePattern) (invert co ce : Bool)
    (stats : Stats) :
    (grep_file f rx invert co ce stats).1.files_seen = stats.files_seen + 1 ∧
    (grep_file f rx invert co ce stats).1.files_read +
      (grep_file f rx invert co ce stats).1.files_skipped_binary + ioInd f =
      stats.files_read + stats.files_skipped_binary + 1 := by
  by_cases hb : is_probably_text_file f 4096 = true
  · cases hr : f.readResult with
    | openError => simp [grep_file, hb, hr, ioInd]
    | ok L => cases co <;> (simp [grep_file, hb, hr, ioInd]; omega)
  · have hb' : is_probably_text_file f 4096 = false := by simpa using hb
    simp [grep_file, hb', ioInd]
    omega

/-- Run-level version: over a whole file list, `files_seen` grows by
the number of files and splits into read, skipped and I/O-error files. -/
theorem grep_run_files_eq (rx : RePattern) (invert co ce : Bool) :
    ∀ (files : List FileModel) (stats : Stats),
      (grep_run rx invert co ce stats files).1.files_seen = stats.files_seen + files.length ∧
      (grep_run rx invert co ce stats files).1.files_read +
        (grep_run rx invert co ce stats files).1.files_skipped_binary + ioErrorCount files =
        stats.files_read + stats.files_skipped_binary + files.length := by
  intro files
  induction files with
  | nil =>
    intro stats
    simp [grep_run, ioErrorCount]
  | cons f rest ih =>
    intro stats
    obtain ⟨h1, h2⟩ := grep_file_files_eq f rx invert co ce stats
    obtain ⟨h3, h4⟩ := ih ((grep_file f rx invert co ce stats).1)
    constructor <;> (simp only [grep_run, ioErrorCount, List.length_cons]; omega)

/-- C3: after any run over any list of input files starting from fresh
counters, the run statistics satisfy files_seen = files_read +
files_skipped_binary + (number of files that hit a per-file I/O
error). -/
theorem c3_stats_invariant (rx : RePattern) (invert co ce : Bool) (files : List FileModel) :
    (grep_run rx invert co ce Stats.init files).1.files_seen =
      (grep_run rx invert co ce Stats.init files).1.files_read +
      (grep_run rx invert co ce Stats.init files).1.files_skipped_binary +
      ioErrorCount files := by
  obtain ⟨h1, h2⟩ := grep_run_files_eq rx invert co ce files Stats.init
  simp only [Stats.init] at h1 h2 ⊢
  omega

/-- C5: the text classifier returns false exactly when the at-most-4096
byte sample holds a NUL byte or the file cannot be opened/read; a file
it classifies as binary is never line-scanned, adds 1 to
files_skipped_binary and 0 to files_read. -/
theorem c5_binary_classifier (f : FileModel) (rx : RePattern) (invert co ce : Bool)
    (stats : Stats) :
    (is_probably_text_file f 4096 = false ↔
      (f.bytes = none ∨ ∃ chunk, f.bytes = some chunk ∧ (0 : Nat) ∈ chunk.take 4096)) ∧
    (is_probably_text_file f 4096 = false →
      ((grep_file f rx invert co ce stats).1.files_skipped_binary =
         stats.files_skipped_binary + 1 ∧
       (grep_file f rx invert co ce stats).1.files_read = stats.files_read ∧
       (grep_file f rx invert co ce stats).1.lines_seen = stats.lines_seen ∧
       (grep_file f rx invert co ce stats).2 = [])) := by
  constructor
  · cases hby : f.bytes with
    | none => simp [is_probably_text_file, hby]
    | some chunk => simp [is_probably_text_file, hby]
  · intro h
    simp [grep_file, h]

/-- Witness for C5: a file whose sample starts with a NUL byte is
classified binary and only bumps the skip counter. -/
theorem c5_binary_classifier_witness :
    is_probably_text_file fileBin 4096 = false ∧
    ((grep_file fileBin patError false false false Stats.init).1.files_skipped_binary = 1 ∧
     (grep_file fileBin patError false false false Stats.init).1.files_read = 0 ∧
     (grep_file fileBin patError false false false Stats.init).1.lines_seen = 0 ∧
     (grep_file fileBin patError false false false Stats.init).2 = []) :=
  ⟨by decide,
   (c5_binary_classifier fileBin patError false false false Stats.init).2 (by decide)⟩

/-- A literal pattern's search succeeds exactly when the pattern occurs
somewhere inside the line: the search is unanchored. -/
theorem findLiteral_mem (p : List Char) :
    ∀ (l : List Char) (i : Nat),
      ((findLiteral p i l).isSome = true ↔ ∃ u v, l = u ++ p ++ v) := by
  intro l
  induction l with
  | nil =>
    intro i
    simp only [findLiteral]
    split
    · rename_i hp
      obtain ⟨t, ht⟩ := (isPrefixOf_exists p []).mp hp
      have hp0 : p = [] := by
        cases p with
        | nil => rfl
        | cons x xs => simp at ht
      subst hp0
      simp
    · rename_i hp
      simp only [Option.isSome_none]
      constructor
      · intro h
        cases h
      · rintro ⟨u, v, huv⟩
        exfalso
        obtain ⟨h1, -⟩ := List.append_eq_nil.mp huv.symm
        obtain ⟨-, h2⟩ := List.append_eq_nil.mp h1
        apply hp
        subst h2
        simp [List.isPrefixOf]
  | cons c rest ih =>
    intro i
    simp only [findLiteral]
    split
    · rename_i hp
      obtain ⟨t, ht⟩ := (isPrefixOf_exists p (c :: rest)).mp hp
      simp only [Option.isSome_some, true_iff]
      exact ⟨[], t, by simpa using ht⟩
    · rename_i hp
      rw [ih (i + 1)]
      constructor
      · rintro ⟨u, v, rfl⟩
        exact ⟨c :: u, v, rfl⟩
      · rintro ⟨u, v, huv⟩
        cases u with
        | nil =>
          exfalso
          apply hp
          rw [isPrefixOf_exists]
          simp only [List.nil_append] at huv
          exact ⟨v, huv⟩
        | cons d u' =>
          injection huv with h1 h2
          exact ⟨u', v, h2⟩

/-- C4: the per-line interest test computes matched as "the pattern
search over the stripped line succeeds" and returns matched under
Normal policy and not-matched under Inverted policy; this decision is
the one the scan loop counts by; and the search is unanchored — for a
literal pattern it succeeds exactly when the pattern occurs anywhere in
the line. -/
theorem c4_line_interest (rx : RePattern) (invert ce : Bool) (n : Nat) (raw : List Char) :
    (lineOk rx invert raw =
      (if invert then !(rx.search (rstripNewlines raw)).isSome
       else (rx.search (rstripNewlines raw)).isSome)) ∧
    ((scanLines rx invert true ce n [raw]).match_count =
      if lineOk rx invert raw then 1 else 0) ∧
    (∀ (p line : List Char),
      (((literalPattern p).search line).isSome = true ↔ ∃ u v, line = u ++ p ++ v)) := by
  refine ⟨rfl, ?_, ?_⟩
  · by_cases h : lineOk rx invert raw = true
    · rw [scanLines_cons_count rx invert ce n raw [] h, h]
      simp [scanLines_nil]
    · have h' : lineOk rx invert raw = false := by simpa using h
      rw [scanLines_cons_skip rx invert true ce n raw [] h', h']
      simp [scanLines_nil]
  · intro p line
    exact findLiteral_mem p line 0

/-- Witness for C4: the literal pattern `ok` is found unanchored inside
a line that neither starts nor ends with it. -/
theorem c4_line_interest_witness :
    ((literalPattern ['o', 'k']).search ['x', 'o', 'k', 'y']).isSome = true ↔
      ∃ u v, ['x', 'o', 'k', 'y'] = u ++ ['o', 'k'] ++ v :=
  (c4_line_interest (literalPattern ['o', 'k']) false false 1 []).2.2 ['o', 'k'] ['x', 'o', 'k', 'y']

/-- C6: in CountPerFile mode, every text file that passes
classification and is opened yields exactly one path:count output line
— also when the count is 0 — and bumps stats.lines_reported by exactly
1 for that file. -/
theorem c6_count_emission (f : FileModel) (rx : RePattern) (invert ce : Bool)
    (stats : Stats) (L : List (List Char))
    (htext : is_probably_text_file f 4096 = true) (hread : f.readResult = ReadResult.ok L) :
    (∃ c, (grep_file f rx invert true ce stats).2 = [OutLine.countLine c]) ∧
    (grep_file f rx invert true ce stats).1.lines_reported = stats.lines_reported + 1 := by
  obtain ⟨h1, h2, -⟩ := scan_count_mode rx invert ce ce L 1
  constructor
  · refine ⟨(scanLines rx invert true ce 1 L).match_count, ?_⟩
    rw [grep_file_out_count f rx invert ce stats L htext hread, h1]
    simp
  · rw [grep_file_reported_count f rx invert ce stats L htext hread, h2]

/-- Witness for C6: a file with no matching line still emits exactly
one count line (count 0) and reports exactly one output line. -/
theorem c6_count_emission_witness :
    is_probably_text_file fileNoHit 4096 = true ∧
    ((∃ c, (grep_file fileNoHit patError false true false Stats.init).2 =
        [OutLine.countLine c]) ∧
     (grep_file fileNoHit patError false true false Stats.init).1.lines_reported =
       Stats.init.lines_reported + 1) :=
  ⟨by decide,
   c6_count_emission fileNoHit patError false false Stats.init [['o', 'k', '\n']]
     (by decide) rfl⟩

/-- C7: when the pattern text does not compile, the run fails fast:
exit code 2, and no input file is opened, classified or scanned — the
counters stay at their fresh zero values and nothing is printed. -/
theorem c7_invalid_regex_fail_fast (m : Nat) (invert co ce : Bool) (files : List FileModel) :
    mainModel CompileResult.err m invert co ce files = (2, Stats.init, []) ∧
    Stats.init.files_seen = 0 ∧ Stats.init.files_read = 0 ∧
    Stats.init.files_skipped_binary = 0 ∧ Stats.init.lines_seen = 0 :=
  ⟨rfl, rfl, rfl, rfl, rfl⟩

/-- C8: a file that passes classification but cannot then be opened
only has its failure logged: files_read is unchanged, nothing is
emitted for it, no exception escapes, and the run continues with the
remaining files exactly as if only files_seen had been bumped. -/
theorem c8_per_file_io_error (f : FileModel) (rest : List FileModel) (rx : RePattern)
    (invert co ce : Bool) (stats : Stats)
    (htext : is_probably_text_file f 4096 = true)
    (herr : f.readResult = ReadResult.openError) :
    grep_file f rx invert co ce stats =
      ({ stats with files_seen := stats.files_seen + 1 }, []) ∧
    (grep_file f rx invert co ce stats).1.files_read = stats.files_read ∧
    grep_run rx invert co ce stats (f :: rest) =
      grep_run rx invert co ce { stats with files_seen := stats.files_seen + 1 } rest := by
  have h1 : grep_file f rx invert co ce stats =
      ({ stats with files_seen := stats.files_seen + 1 }, []) := by
    simp [grep_file, htext, herr]
  refine ⟨h1, by rw [h1], ?_⟩
  simp only [grep_run, h1]
  simp

/-- Witness for C8: an unreadable-after-classification file before
scenario A's file leaves the rest of the run unchanged. -/
theorem c8_per_file_io_error_witness :
    is_probably_text_file fileGone 4096 = true ∧
    fileGone.readResult = ReadResult.openError ∧
    grep_run patError false false false Stats.init [fileGone, fileA] =
      grep_run patError false false false
        { Stats.init with files_seen := Stats.init.files_seen + 1 } [fileA] :=
  ⟨by decide, rfl,
   (c8_per_file_io_error fileGone [fileA] patError false false false Stats.init
     (by decide) rfl).2.2⟩

/-- C9: the first-match highlighter is content-preserving: with
highlighting disabled or with no match it returns the line verbatim;
when it highlights, its output is the original line with the highlight
and reset marker substrings inserted around the first match span, so
removing the two inserted markers recovers exactly the original line. -/
theorem c9_highlight_preserving (rx : RePattern) (line : List Char) :
    (highlight_regex_first line rx false = line) ∧
    (rx.search line = none → highlight_regex_first line rx true = line) ∧
    (∀ a b, rx.search line = some (a, b) →
      ∃ u v w, highlight_regex_first line rx true =
          u ++ ANSI_YELLOW ++ v ++ ANSI_RESET ++ w ∧
        u ++ v ++ w = line) := by
  refine ⟨rfl, ?_, ?_⟩
  · intro h
    simp [highlight_regex_first, h]
  · intro a b h
    have hab := (rx.valid h).1
    refine ⟨line.take a, (line.drop a).take (b - a), line.drop b, ?_, ?_⟩
    · simp [highlight_regex_first, h]
    · have h2 : (line.drop a).drop (b - a) = line.drop b := by
        rw [List.drop_drop]
        congr 1
        omega
      calc line.take a ++ (line.drop a).take (b - a) ++ line.drop b
          = line.take a ++ ((line.drop a).take (b - a) ++ (line.drop a).drop (b - a)) := by
            rw [List.append_assoc, h2]
        _ = line.take a ++ line.drop a := by rw [List.take_append_drop]
        _ = line := List.take_append_drop a line

/-- Witness for C9: highlighting the literal pattern `b` inside `abc`
decomposes into markers around the match with the original line
recoverable. -/
theorem c9_highlight_preserving_witness :
    (literalPattern ['b']).search ['a', 'b', 'c'] = some (1, 2) ∧
    (∃ u v w, highlight_regex_first ['a', 'b', 'c'] (literalPattern ['b']) true =
        u ++ ANSI_YELLOW ++ v ++ ANSI_RESET ++ w ∧
      u ++ v ++ w = ['a', 'b', 'c']) :=
  ⟨by decide,
   (c9_highlight_preserving (literalPattern ['b']) ['a', 'b', 'c']).2.2 1 2 (by decide)⟩

/-! ### rstrip lemmas for C10 -/

theorem rstrip_only_newlines :
    ∀ raw : List Char, ∃ k, raw = rstripNewlines raw ++ List.replicate k '\n' := by
  intro raw
  induction raw with
  | nil => exact ⟨0, rfl⟩
  | cons c rest ih =>
    obtain ⟨k, hk⟩ := ih
    by_cases h : ((rstripNewlines rest).isEmpty && (c == '\n')) = true
    · rw [Bool.and_eq_true] at h
      have hr : rstripNewlines rest = [] := by
        simpa [List.isEmpty_iff] using h.1
      have hc : c = '\n' := by
        simpa using h.2
      have hres : rstripNewlines (c :: rest) = [] := by
        simp [rstripNewlines, hr, hc]
      subst hc
      refine ⟨k + 1, ?_⟩
      rw [hres, List.nil_append, List.replicate_succ]
      rw [hr, List.nil_append] at hk
      rw [hk]
    · have h' : ((rstripNewlines rest).isEmpty && (c == '\n')) = false := by
        simpa using h
      have hres : rstripNewlines (c :: rest) = c :: rstripNewlines rest := by
        simp [rstripNewlines, h']
      refine ⟨k, ?_⟩
      rw [hres, List.cons_append, ← hk]

theorem rstrip_no_trailing :
    ∀ (raw s : List Char), rstripNewlines raw ≠ s ++ ['\n'] := by
  intro raw
  induction raw with
  | nil =>
    intro s h
    have hl := congrArg List.length h
    simp [rstripNewlines] at hl
  | cons c rest ih =>
    intro s h
    by_cases hcond : ((rstripNewlines rest).isEmpty && (c == '\n')) = true
    · have hres : rstripNewlines (c :: rest) = [] := by
        rw [Bool.and_eq_true] at hcond
        have hr : rstripNewlines rest = [] := by
          simpa [List.isEmpty_iff] using hcond.1
        have hc : c = '\n' := by simpa using hcond.2
        simp [rstripNewlines, hr, hc]
      rw [hres] at h
      have hl := congrArg List.length h
      simp at hl
    · have h' : ((rstripNewlines rest).isEmpty && (c == '\n')) = false := by
        simpa using hcond
      have hres : rstripNewlines (c :: rest) = c :: rstripNewlines rest := by
        simp [rstripNewlines, h']
      rw [hres] at h
      cases s with
      | nil =>
        simp only [List.nil_append] at h
        injection h with h1 h2
        apply hcond
        rw [Bool.and_eq_true]
        constructor
        · simp [h2]
        · simp [h1]
      | cons d s' =>
        rw [List.cons_append] at h
        injection h with h1 h2
        exact ih s' h2

theorem rstrip_replicate : ∀ k : Nat, rstripNewlines (List.replicate k '\n') = [] := by
  intro k
  induction k with
  | zero => rfl
  | succ m ih =>
    rw [List.replicate_succ]
    simp [rstripNewlines, ih]

theorem rstrip_append_newlines :
    ∀ (l : List Char) (k : Nat),
      rstripNewlines (l ++ List.replicate k '\n') = rstripNewlines l := by
  intro l
  induction l with
  | nil =>
    intro k
    simp only [List.nil_append]
    exact rstrip_replicate k
  | cons c rest ih =>
    intro k
    rw [List.cons_append]
    simp [rstripNewlines, ih k]

theorem rstrip_last_cr : ∀ s : List Char, rstripNewlines (s ++ ['\r']) = s ++ ['\r'] := by
  intro s
  induction s with
  | nil => simp [rstripNewlines]
  | cons c s' ih =>
    rw [List.cons_append]
    simp [rstripNewlines, ih]

theorem scan_single_line (rx : RePattern) (n : Nat) (raw : List Char) :
    (scanLines rx false false false n [raw]).out =
      (if (rx.search (rstripNewlines raw)).isSome then
         [OutLine.matchLine n (rstripNewlines raw)] else []) := by
  by_cases h : (rx.search (rstripNewlines raw)).isSome = true
  · have hok : lineOk rx false raw = true := by simpa [lineOk] using h
    rw [scanLines_cons_hit rx false false n raw [] hok, h]
    simp [scanLines_nil]
  · have h' : (rx.search (rstripNewlines raw)).isSome = false := by simpa using h
    have hok : lineOk rx false raw = false := by simpa [lineOk] using h'
    rw [scanLines_cons_skip rx false false false n raw [] hok, h']
    simp [scanLines_nil]

/-- C10: per-line preprocessing strips only trailing newline characters
— each raw line is its stripped form plus trailing newlines, and the
stripped form never ends in a newline — a carriage return from a CRLF
ending is retained, and the scan loop applies both the match test and
the emitted content to that same stripped string. -/
theorem c10_rstrip_preprocessing :
    (∀ raw : List Char, ∃ k, raw = rstripNewlines raw ++ List.replicate k '\n') ∧
    (∀ (raw s : List Char), rstripNewlines raw ≠ s ++ ['\n']) ∧
    (∀ (s : List Char) (k : Nat),
      rstripNewlines (s ++ '\r' :: List.replicate k '\n') = s ++ ['\r']) ∧
    (∀ (rx : RePattern) (n : Nat) (raw : List Char),
      (scanLines rx false false false n [raw]).out =
        (if (rx.search (rstripNewlines raw)).isSome then
           [OutLine.matchLine n (rstripNewlines raw)] else [])) := by
  refine ⟨rstrip_only_newlines, rstrip_no_trailing, ?_, scan_single_line⟩
  intro s k
  rw [show s ++ '\r' :: List.replicate k '\n' = (s ++ ['\r']) ++ List.replicate k '\n' from by simp]
  rw [rstrip_append_newlines (s ++ ['\r']) k]
  exact rstrip_last_cr s

/-- Witness for C10: the raw line with a CRLF ending keeps its carriage
return, and a newline-terminated line decomposes as stripped content
plus trailing newlines. -/
theorem c10_rstrip_preprocessing_witness :
    (∃ k, ['a', '\n'] = rstripNewlines ['a', '\n'] ++ List.replicate k '\n') ∧
    rstripNewlines (['a'] ++ '\r' :: List.replicate 1 '\n') = ['a'] ++ ['\r'] :=
  ⟨c10_rstrip_preprocessing.1 ['a', '\n'],
   c10_rstrip_preprocessing.2.2.1 ['a'] 1⟩
